import Mathlib

/-!
Verification of the image-annotation utilities of `src/util/utils.py`
(`DetectionUtils` and `SegmentationUtils`), shallowly embedded in Lean.

Conventions of the embedding:
* a numpy `height × width × 3` (or `width × height × 3`) uint8 array is an
  `Image`, a list of pixel rows, each pixel a BGR triple of `Nat`s;
* the `random` module is a pre-drawn stream of colors plus a position, and
  the process-global `DetectionUtils.label_colors` dictionary is an
  association list, both threaded explicitly through a `GlobalState`;
* Python exceptions (`IndexError` from a bad list index, `ValueError` from a
  mismatched `reshape`) and `sys.exit` become `Except` results;
* the external cv2 drawing primitives that have exact pixel semantics
  (`hconcat`, `copyMakeBorder`, filled `rectangle`, `addWeighted` up to
  sub-pixel rounding) are implemented concretely; font rasterisation
  (`cv2.putText`) is abstracted by a coverage function `GlyphFun` saying
  which pixels the rendered text touches, and the draw primitives used by
  `DetectionUtils` are likewise parameters, since the claims about them do
  not depend on glyph shapes.
-/

/-- Decidable equality for `Except`, used only to let concrete runs of the
embedded functions be checked by `decide`. -/
instance {ε α : Type} [DecidableEq ε] [DecidableEq α] : DecidableEq (Except ε α) := fun a b =>
  match a, b with
  | Except.error x, Except.error y =>
    if h : x = y then isTrue (by rw [h]) else isFalse (by intro hc; cases hc; exact h rfl)
  | Except.ok x, Except.ok y =>
    if h : x = y then isTrue (by rw [h]) else isFalse (by intro hc; cases hc; exact h rfl)
  | Except.error _, Except.ok _ => isFalse (by intro hc; cases hc)
  | Except.ok _, Except.error _ => isFalse (by intro hc; cases hc)

/-- A BGR color, one `Nat` per 8-bit channel. -/
abbrev Color : Type := Nat × Nat × Nat

/-- An image: a list of pixel rows, modelling a rank-3 numpy uint8 array. -/
structure Image where
  rows : List (List Color)
deriving DecidableEq

/-- `shape[0]` of the underlying array. -/
def Image.height (img : Image) : Nat := img.rows.length

/-- `shape[1]` of the underlying array. -/
def Image.width (img : Image) : Nat := (img.rows.headD []).length

/-- `img.Rect H W`: the image is a rectangular `H × W` pixel grid (every
numpy array of shape `(H, W, 3)` satisfies this). -/
@[reducible]
def Image.Rect (img : Image) (H W : Nat) : Prop :=
  img.rows.map List.length = List.replicate H W

/-- One entry of `SegmentationResult.colored_labels`: a category name and
its display color (field `color` of `tflite_support`'s `ColoredLabel`). -/
structure ColoredLabel where
  category_name : String
  color : Color
deriving DecidableEq

/-- The part of `tflite_support.processor.SegmentationResult` read by
`SegmentationUtils.segmentation_map_to_image`: the flat per-pixel category
byte buffer (already viewed through `np.frombuffer(..., dtype=np.uint8)` as
a list of byte values), the frame dimensions and the category lookup
table. -/
structure SegmentationResult where
  category_mask : List Nat
  width : Nat
  height : Nat
  colored_labels : List ColoredLabel
deriving DecidableEq

/-- The Python exceptions that `segmentation_map_to_image` can raise: an
`IndexError` from `segmentation.colored_labels[idx]` with the offending
index, or a `ValueError` from `reshape` when the buffer length does not
match `width * height`. -/
inductive SegError where
  | indexError (idx : Nat)
  | valueError
deriving DecidableEq

/-- Insert a value into an ascending duplicate-free list, keeping it
ascending and duplicate-free. Building block for `uniqueSorted`. -/
def insertUnique (x : Nat) : List Nat → List Nat
  | [] => [x]
  | y :: t => if x < y then x :: y :: t else if x = y then y :: t else y :: insertUnique x t

/-- The ascending list of distinct values of a list: the first component of
`np.unique(masks, ...)`. -/
def uniqueSorted (l : List Nat) : List Nat := l.foldr insertUnique []

/-- Position of the first occurrence of `x` in a list; on the lists we
apply it to, `x` is always present. Models the `return_inverse=True`
component of `np.unique`: `inverse_map[p]` is the position of `masks[p]`
in the ascending unique-value list. -/
def idxOfNat (x : Nat) : List Nat → Nat
  | [] => 0
  | y :: t => if y = x then 0 else idxOfNat x t + 1

/-- The list comprehension
`[segmentation.colored_labels[idx] for idx in sorted_label_indices]`:
evaluated left to right, raising `IndexError` at the first index with no
corresponding entry. -/
def lookupLabels (cls : List ColoredLabel) : List Nat → Except SegError (List ColoredLabel)
  | [] => Except.ok []
  | i :: rest =>
    match cls.get? i with
    | none => Except.error (SegError.indexError i)
    | some cl =>
      match lookupLabels cls rest with
      | Except.ok out => Except.ok (cl :: out)
      | Except.error e => Except.error e

/-- `reshape([w, h, 3])` of a flat pixel list of length `w * h`: row `i`
holds the pixels at flat positions `i*h, ..., i*h + h - 1`. -/
def chunkRows (w h : Nat) (flat : List Color) : List (List Color) :=
  (List.range w).map (fun i => (flat.drop (i * h)).take h)

namespace SegmentationUtils

/-- `SegmentationUtils.segmentation_map_to_image` from `src/util/utils.py`.

* `masks` is the uint8 view of the category byte buffer;
* `uniqueSorted`, `idxOfNat` model `np.unique(masks, return_inverse=True)`;
* `count_dict[index]` is the occurrence count of `index` in `masks`, i.e.
  `masks.count index`;
* Python's `sorted(found_label_indices, key=lambda i: count_dict[i],
  reverse=True)` is a stable descending sort, modelled by the stable
  `List.insertionSort` with `a ≼ b` iff `count b ≤ count a`;
* the list comprehension over `sorted_label_indices` is `lookupLabels`
  (first bad index raises `IndexError`);
* `np.array(found_colors)[inverse_map].reshape([width, height, 3])` is the
  gather `inverse_map.map (found_colors.getD · _)` (every `inverse_map`
  entry is a position in `found_colors` by construction, so the default is
  never read) followed by `chunkRows`; `reshape` raises `ValueError` when
  the buffer length is not `width * height`. -/
def segmentation_map_to_image (segmentation : SegmentationResult) :
    Except SegError (Image × List ColoredLabel) :=
  let masks := segmentation.category_mask
  let found_label_indices := uniqueSorted masks
  let inverse_map := masks.map (fun v => idxOfNat v found_label_indices)
  let sorted_label_indices :=
    @List.insertionSort Nat (fun a b => masks.count b ≤ masks.count a)
      (fun a b => Nat.decLe (masks.count b) (masks.count a)) found_label_indices
  match lookupLabels segmentation.colored_labels sorted_label_indices with
  | Except.error e => Except.error e
  | Except.ok found_colored_labels =>
    let found_colors := found_colored_labels.map (fun item => item.color)
    if masks.length = segmentation.width * segmentation.height then
      Except.ok
        (⟨chunkRows segmentation.width segmentation.height
            (inverse_map.map (fun i => found_colors.getD i (0, 0, 0)))⟩,
          found_colored_labels)
    else Except.error SegError.valueError

end SegmentationUtils

theorem mem_insertUnique {x a : Nat} : ∀ {l : List Nat}, a ∈ insertUnique x l ↔ a = x ∨ a ∈ l
  | [] => by simp [insertUnique]
  | y :: t => by
    unfold insertUnique
    by_cases hlt : x < y
    · simp [hlt]
    · by_cases heq : x = y
      · subst heq
        rw [if_neg hlt, if_pos rfl]
        simp only [List.mem_cons]
        tauto
      · simp [hlt, heq, @mem_insertUnique x a t]
        tauto

theorem sorted_insertUnique {x : Nat} :
    ∀ {l : List Nat}, l.Sorted (· < ·) → (insertUnique x l).Sorted (· < ·)
  | [], _ => by simp [insertUnique]
  | y :: t, h => by
    rw [List.sorted_cons] at h
    unfold insertUnique
    by_cases hlt : x < y
    · rw [if_pos hlt, List.sorted_cons]
      refine ⟨?_, List.sorted_cons.2 h⟩
      intro b hb
      rcases List.mem_cons.1 hb with hb | hb
      · exact hb ▸ hlt
      · exact lt_trans hlt (h.1 b hb)
    · rw [if_neg hlt]
      by_cases heq : x = y
      · rw [if_pos heq, List.sorted_cons]
        exact h
      · rw [if_neg heq, List.sorted_cons]
        refine ⟨?_, sorted_insertUnique h.2⟩
        intro b hb
        rcases mem_insertUnique.1 hb with hb | hb
        · subst hb
          omega
        · exact h.1 b hb

theorem sorted_uniqueSorted : ∀ l : List Nat, (uniqueSorted l).Sorted (· < ·)
  | [] => by simp [uniqueSorted]
  | x :: t => sorted_insertUnique (sorted_uniqueSorted t)

theorem mem_uniqueSorted {a : Nat} : ∀ {l : List Nat}, a ∈ uniqueSorted l ↔ a ∈ l
  | [] => by simp [uniqueSorted]
  | x :: t => by
    show a ∈ insertUnique x (uniqueSorted t) ↔ _
    rw [mem_insertUnique, @mem_uniqueSorted a t]
    simp

theorem nodup_uniqueSorted (l : List Nat) : (uniqueSorted l).Nodup :=
  (sorted_uniqueSorted l).imp ne_of_lt

theorem lookupLabels_ok_forall₂ {cls : List ColoredLabel} :
    ∀ {idxs : List Nat} {out : List ColoredLabel}, lookupLabels cls idxs = Except.ok out →
      List.Forall₂ (fun i cl => cls.get? i = some cl) idxs out := by
  intro idxs
  induction idxs with
  | nil =>
    intro out h
    cases h
    exact List.Forall₂.nil
  | cons i rest ih =>
    intro out h
    unfold lookupLabels at h
    cases hget : cls.get? i with
    | none => rw [hget] at h; cases h
    | some cl =>
      rw [hget] at h
      cases hrest : lookupLabels cls rest with
      | error e => rw [hrest] at h; cases h
      | ok out2 =>
        rw [hrest] at h
        cases h
        exact List.Forall₂.cons hget (ih hrest)

theorem lookupLabels_ok_of_valid {cls : List ColoredLabel} :
    ∀ {idxs : List Nat}, (∀ i ∈ idxs, i < cls.length) →
      ∃ out, lookupLabels cls idxs = Except.ok out := by
  intro idxs
  induction idxs with
  | nil => exact fun _ => ⟨[], rfl⟩
  | cons i rest ih =>
    intro h
    have hi : i < cls.length := h i (List.mem_cons_self i rest)
    have hget : cls.get? i = some (cls.get ⟨i, hi⟩) := List.get?_eq_get hi
    obtain ⟨out, hout⟩ := ih (fun j hj => h j (List.mem_cons_of_mem i hj))
    refine ⟨cls.get ⟨i, hi⟩ :: out, ?_⟩
    unfold lookupLabels
    rw [hget, hout]

theorem lookupLabels_error_of_invalid {cls : List ColoredLabel} :
    ∀ {idxs : List Nat}, (∃ i ∈ idxs, cls.length ≤ i) →
      ∃ j, lookupLabels cls idxs = Except.error (SegError.indexError j) ∧ cls.length ≤ j := by
  intro idxs
  induction idxs with
  | nil => rintro ⟨i, hmem, _⟩; cases hmem
  | cons i rest ih =>
    rintro ⟨b, hmem, hb⟩
    unfold lookupLabels
    cases hget : cls.get? i with
    | none =>
      exact ⟨i, rfl, List.get?_eq_none.1 hget⟩
    | some cl =>
      have hbi : b ≠ i := by
        intro hbe
        subst hbe
        have := List.get?_eq_none.2 hb
        rw [this] at hget
        cases hget
      have hbrest : b ∈ rest := by
        rcases List.mem_cons.1 hmem with h | h
        · exact absurd h hbi
        · exact h
      obtain ⟨j, hj, hjlen⟩ := ih ⟨b, hbrest, hb⟩
      rw [hj]
      exact ⟨j, rfl, hjlen⟩

theorem lookup_append_of_some {α β : Type} [BEq α] {a : α} {c : β} :
    ∀ {l l2 : List (α × β)}, l.lookup a = some c → (l ++ l2).lookup a = some c := by
  intro l
  induction l with
  | nil => intro l2 h; cases h
  | cons kv t ih =>
    intro l2 h
    obtain ⟨k, v⟩ := kv
    rw [List.cons_append]
    rw [List.lookup] at h
    rw [List.lookup]
    cases hk : a == k with
    | true => rw [hk] at h; exact h
    | false => rw [hk] at h; exact ih h

theorem lookup_append_none {α β : Type} [BEq α] {a : α} :
    ∀ {l l2 : List (α × β)}, l.lookup a = none → (l ++ l2).lookup a = l2.lookup a := by
  intro l
  induction l with
  | nil => intro l2 _; rfl
  | cons kv t ih =>
    intro l2 h
    obtain ⟨k, v⟩ := kv
    rw [List.cons_append]
    rw [List.lookup] at h
    rw [List.lookup]
    cases hk : a == k with
    | true => rw [hk] at h; cases h
    | false => rw [hk] at h; exact ih h

/-- A one-row frame with four pixels: category 0 once, category 1 three
times. Category 1 outnumbers category 0, so the count-sorted label order
`[1, 0]` differs from the ascending unique-value order `[0, 1]` that
`inverse_map` refers to. -/
def segMismatch : SegmentationResult :=
  ⟨[0, 1, 1, 1], 4, 1, [⟨"A", (1, 1, 1)⟩, ⟨"B", (2, 2, 2)⟩]⟩

/-- A 4×4 all-zero mask whose single category has color `(10, 20, 30)`. -/
def segAllZeros : SegmentationResult :=
  ⟨List.replicate 16 0, 4, 4, [⟨"background", (10, 20, 30)⟩]⟩

/-- A one-row frame of ten pixels in which category 3 covers 70% of the
pixels and category 1 the remaining 30%. -/
def seg70 : SegmentationResult :=
  ⟨List.replicate 7 3 ++ List.replicate 3 1, 10, 1,
    [⟨"l0", (0, 0, 1)⟩, ⟨"l1", (0, 0, 2)⟩, ⟨"l2", (0, 0, 3)⟩, ⟨"l3", (0, 0, 4)⟩]⟩

/-- The image `segmentation_map_to_image` returns on `seg70`. -/
def seg70img : Image :=
  ⟨chunkRows 10 1 (List.replicate 7 (0, 0, 2) ++ List.replicate 3 (0, 0, 4))⟩

/-- C2: whenever `segmentation_map_to_image` succeeds, the returned
`sortedColoredLabels` list consists of the `colored_labels` entries of the
distinct categories present in the mask (each exactly once), ordered by
descending pixel count; and on a mask where category 3 covers 70% of the
pixels and category 1 covers 30%, its first element is the entry for
category 3. -/
theorem segmentation_sorted_labels_by_count :
    (∀ seg img labels,
        SegmentationUtils.segmentation_map_to_image seg = Except.ok (img, labels) →
        ∃ idxs : List Nat,
          List.Forall₂ (fun i cl => seg.colored_labels.get? i = some cl) idxs labels ∧
          idxs.Nodup ∧
          (∀ v, v ∈ idxs ↔ v ∈ seg.category_mask) ∧
          idxs.Pairwise
            (fun a b => seg.category_mask.count b ≤ seg.category_mask.count a)) ∧
    (SegmentationUtils.segmentation_map_to_image seg70).map (fun p => p.2.head?) =
      Except.ok (some ⟨"l3", (0, 0, 4)⟩) := by
  constructor
  · intro seg img labels h
    simp only [SegmentationUtils.segmentation_map_to_image] at h
    split at h
    · cases h
    · rename_i fcl heq
      split at h
      · cases h
        refine ⟨_, lookupLabels_ok_forall₂ heq, ?_, ?_, ?_⟩
        · exact (List.perm_insertionSort _ _).nodup_iff.2
            (nodup_uniqueSorted seg.category_mask)
        · intro v
          exact (List.perm_insertionSort _ _).mem_iff.trans mem_uniqueSorted
        · haveI : IsTotal Nat
              (fun a b => seg.category_mask.count b ≤ seg.category_mask.count a) :=
            ⟨fun a b => Nat.le_total _ _⟩
          haveI : IsTrans Nat
              (fun a b => seg.category_mask.count b ≤ seg.category_mask.count a) :=
            ⟨fun a b c hab hbc => Nat.le_trans hbc hab⟩
          exact List.sorted_insertionSort _ _
      · cases h
  · decide

/-- C2 witness: the sorted-labels property instantiated on the concrete
70%/30% mask `seg70`. -/
theorem segmentation_sorted_labels_by_count_witness :
    ∃ idxs : List Nat,
      List.Forall₂ (fun i cl => seg70.colored_labels.get? i = some cl) idxs
        [⟨"l3", (0, 0, 4)⟩, ⟨"l1", (0, 0, 2)⟩] ∧
      idxs.Nodup ∧
      (∀ v, v ∈ idxs ↔ v ∈ seg70.category_mask) ∧
      idxs.Pairwise
        (fun a b => seg70.category_mask.count b ≤ seg70.category_mask.count a) :=
  segmentation_sorted_labels_by_count.1 seg70 seg70img
    [⟨"l3", (0, 0, 4)⟩, ⟨"l1", (0, 0, 2)⟩] (by decide)

/-- C3: `segmentation_map_to_image` raises an `IndexError` (with an
out-of-range index) whenever some mask value has no entry in
`colored_labels`, and when every mask value is a valid index that error is
unreachable. -/
theorem segmentation_index_error :
    ∀ seg : SegmentationResult,
      ((∃ v ∈ seg.category_mask, seg.colored_labels.length ≤ v) →
        ∃ i, SegmentationUtils.segmentation_map_to_image seg =
            Except.error (SegError.indexError i) ∧ seg.colored_labels.length ≤ i) ∧
      ((∀ v ∈ seg.category_mask, v < seg.colored_labels.length) →
        ∀ i, SegmentationUtils.segmentation_map_to_image seg ≠
            Except.error (SegError.indexError i)) := by
  intro seg
  constructor
  · rintro ⟨v, hv, hlen⟩
    have hvin :
        v ∈ @List.insertionSort Nat
          (fun a b => seg.category_mask.count b ≤ seg.category_mask.count a)
          (fun a b => Nat.decLe (seg.category_mask.count b) (seg.category_mask.count a))
          (uniqueSorted seg.category_mask) :=
      (List.perm_insertionSort _ _).mem_iff.2 (mem_uniqueSorted.2 hv)
    obtain ⟨j, hj, hjlen⟩ := lookupLabels_error_of_invalid ⟨v, hvin, hlen⟩
    refine ⟨j, ?_, hjlen⟩
    simp only [SegmentationUtils.segmentation_map_to_image, hj]
  · intro hvalid i hcontra
    have hall : ∀ j ∈ @List.insertionSort Nat
        (fun a b => seg.category_mask.count b ≤ seg.category_mask.count a)
        (fun a b => Nat.decLe (seg.category_mask.count b) (seg.category_mask.count a))
        (uniqueSorted seg.category_mask), j < seg.colored_labels.length := by
      intro j hjin
      exact hvalid j (mem_uniqueSorted.1 ((List.perm_insertionSort _ _).mem_iff.1 hjin))
    obtain ⟨out, hout⟩ := lookupLabels_ok_of_valid hall
    simp only [SegmentationUtils.segmentation_map_to_image, hout] at hcontra
    split at hcontra
    · cases hcontra
    · simp at hcontra

/-- A segmentation result whose mask contains the value 5, although only
one colored label exists. -/
def segBadIdx : SegmentationResult := ⟨[0, 5], 2, 1, [⟨"A", (9, 9, 9)⟩]⟩

/-- C3 witness: the error direction applied to `segBadIdx` (mask value 5,
one label) and the unreachability direction applied to the valid
`segAllZeros`. -/
theorem segmentation_index_error_witness :
    SegmentationUtils.segmentation_map_to_image segBadIdx ≠ Except.ok (⟨[]⟩, []) ∧
    SegmentationUtils.segmentation_map_to_image segAllZeros ≠
      Except.error (SegError.indexError 0) := by
  constructor
  · obtain ⟨i, hi, _⟩ := (segmentation_index_error segBadIdx).1 ⟨5, by decide, by decide⟩
    rw [hi]
    intro h
    cases h
  · exact (segmentation_index_error segAllZeros).2 (by decide) 0

/-- C1: refuting evaluation. The claim says every pixel `p` receives
`colored_labels[category_mask[p]].color`. On `segMismatch` the first pixel
has category `category_mask[0] = 0`, whose color is `(1, 1, 1)`, yet the
image returned by `segmentation_map_to_image` gives that pixel `(2, 2, 2)`
— category 1's color — because the code indexes the count-sorted
`found_colors` with the `np.unique` inverse map, which enumerates the
unique values in ascending order. -/
theorem segmentation_map_to_image_wrong_pixel_color :
    (SegmentationUtils.segmentation_map_to_image segMismatch).map
        (fun p => (p.1.rows.headD []).headD (0, 0, 0)) = Except.ok (2, 2, 2) ∧
    segMismatch.category_mask.getD 0 9 = 0 ∧
    (segMismatch.colored_labels.getD 0 ⟨"", (0, 0, 0)⟩).color = (1, 1, 1) ∧
    ((2, 2, 2) : Color) ≠ ((1, 1, 1) : Color) := by decide

/-- C6: on a 4×4 all-zero mask with `colored_labels[0].color = (10,20,30)`,
`segmentation_map_to_image` returns the 4×4 image whose every pixel is
`(10, 20, 30)` together with a single-entry sorted label list (the entry
for category 0). -/
theorem segmentation_map_to_image_all_zeros :
    SegmentationUtils.segmentation_map_to_image segAllZeros =
      Except.ok
        (⟨List.replicate 4 (List.replicate 4 (10, 20, 30))⟩,
          [⟨"background", (10, 20, 30)⟩]) ∧
    Image.Rect ⟨List.replicate 4 (List.replicate 4 ((10, 20, 30) : Color))⟩ 4 4 ∧
    [(⟨"background", (10, 20, 30)⟩ : ColoredLabel)].length = 1 ∧
    segAllZeros.colored_labels.getD 0 ⟨"", (0, 0, 0)⟩ = ⟨"background", (10, 20, 30)⟩ := by
  refine ⟨by decide, ?_, rfl, by decide⟩
  simp [Image.Rect, List.replicate]

/-- The initial value of the class attribute `DetectionUtils.label_colors`
(line 15 of `src/util/utils.py`): the empty dictionary. -/
def initialLabelColors : List (String × Color) := []

/-- The process-global mutable state that `DetectionUtils` reads and
writes: the `label_colors` dictionary (an insertion-ordered association
list, like a Python dict with distinct keys) and the `random` module,
modelled as a pre-drawn stream of colors `randStream` together with the
current position `randPos` (each call to `generate_random_color` makes the
three `random.randint(0, 255)` draws, i.e. consumes one stream entry). -/
structure GlobalState where
  label_colors : List (String × Color)
  randStream : Nat → Color
  randPos : Nat

/-- A detection bounding box (`origin_x`, `origin_y`, `width`, `height`
in pixel units, origin at the top-left corner). -/
structure BoundingBox where
  origin_x : Int
  origin_y : Int
  width : Int
  height : Int

/-- One element of the `detections` list: `detection["box"]` and
`detection["label"]`. -/
structure Detection where
  box : BoundingBox
  label : String

/-- The two cv2 drawing primitives `DetectionUtils.draw_bounding_boxes`
calls. They belong to the external drawing library (out of scope per the
specification), so they are parameters of the embedding: `rectangle`
takes the image, the two corner points, the color and the stroke width;
`putText` takes the image, the text, the origin and the color. -/
structure DrawPrims where
  rectangle : Image → (Int × Int) → (Int × Int) → Color → Nat → Image
  putText : Image → String → (Int × Int) → Color → Image

namespace DetectionUtils

/-- `DetectionUtils.generate_random_color`: three `random.randint(0,255)`
draws forming one BGR color, advancing the generator. -/
def generate_random_color (gs : GlobalState) : Color × GlobalState :=
  (gs.randStream gs.randPos, { gs with randPos := gs.randPos + 1 })

/-- `DetectionUtils.get_color_for_label`: if the label is not yet in
`label_colors`, store a fresh random color for it (Python dict insertion
appends the new key at the end); then return `label_colors[label]`. -/
def get_color_for_label (label : String) (gs : GlobalState) : Color × GlobalState :=
  match gs.label_colors.lookup label with
  | some c => (c, gs)
  | none =>
    let rc := generate_random_color gs
    (rc.1, { rc.2 with label_colors := rc.2.label_colors ++ [(label, rc.1)] })

/-- `DetectionUtils.draw_bounding_boxes`: for each detection in input
order, fetch the label's color, draw the rectangle from
`(origin_x, origin_y)` to `(origin_x + width, origin_y + height)` with
stroke 2, and put the label text 10 pixels above the top-left corner. -/
def draw_bounding_boxes (prims : DrawPrims) (image : Image)
    (detections : List Detection) (gs : GlobalState) : Image × GlobalState :=
  match detections with
  | [] => (image, gs)
  | detection :: rest =>
    let box := detection.box
    let label := detection.label
    let cg := get_color_for_label label gs
    let image1 := prims.rectangle image (box.origin_x, box.origin_y)
      (box.origin_x + box.width, box.origin_y + box.height) cg.1 2
    let image2 := prims.putText image1 label (box.origin_x, box.origin_y - 10) cg.1
    draw_bounding_boxes prims image2 rest cg.2

end DetectionUtils

theorem get_color_cached {gs : GlobalState} {label : String} {c : Color}
    (h : gs.label_colors.lookup label = some c) :
    DetectionUtils.get_color_for_label label gs = (c, gs) := by
  unfold DetectionUtils.get_color_for_label
  rw [h]

theorem get_color_mem {gs : GlobalState} {label : String} :
    ((DetectionUtils.get_color_for_label label gs).2).label_colors.lookup label =
      some (DetectionUtils.get_color_for_label label gs).1 := by
  unfold DetectionUtils.get_color_for_label
  cases h : gs.label_colors.lookup label with
  | some c => simpa using h
  | none =>
    simp only [DetectionUtils.generate_random_color]
    rw [lookup_append_none h]
    simp [List.lookup]

theorem get_color_preserves {gs : GlobalState} {label lab2 : String} {c : Color}
    (h : gs.label_colors.lookup lab2 = some c) :
    ((DetectionUtils.get_color_for_label label gs).2).label_colors.lookup lab2 = some c := by
  unfold DetectionUtils.get_color_for_label
  cases hl : gs.label_colors.lookup label with
  | some d => simpa using h
  | none =>
    simp only [DetectionUtils.generate_random_color]
    exact lookup_append_of_some h

theorem get_color_new {gs : GlobalState} {label : String}
    (h : gs.label_colors.lookup label = none) :
    ((DetectionUtils.get_color_for_label label gs).2).label_colors =
      gs.label_colors ++ [(label, (DetectionUtils.get_color_for_label label gs).1)] := by
  unfold DetectionUtils.get_color_for_label
  rw [h]
  rfl

theorem draw_preserves {prims : DrawPrims} {lab2 : String} {c : Color} :
    ∀ {detections : List Detection} {image : Image} {gs : GlobalState},
      gs.label_colors.lookup lab2 = some c →
      ((DetectionUtils.draw_bounding_boxes prims image detections gs).2).label_colors.lookup
        lab2 = some c := by
  intro dets
  induction dets with
  | nil => intro image gs h; exact h
  | cons d rest ih =>
    intro image gs h
    unfold DetectionUtils.draw_bounding_boxes
    exact ih (get_color_preserves h)

/-- C5: the label→color cache starts empty; a label already cached is
returned unchanged (so two calls for the same label give the identical
color, with the second call not touching the state at all); after any call
the label's color is cached; existing entries are never removed or changed,
neither by `get_color_for_label` nor by any later `draw_bounding_boxes`
call; and a label is inserted (at the end, per dict insertion order)
exactly when it is first seen. -/
theorem get_color_for_label_stable :
    initialLabelColors = [] ∧
    (∀ gs label c, gs.label_colors.lookup label = some c →
        DetectionUtils.get_color_for_label label gs = (c, gs)) ∧
    (∀ gs label,
        ((DetectionUtils.get_color_for_label label gs).2).label_colors.lookup label =
          some (DetectionUtils.get_color_for_label label gs).1) ∧
    (∀ gs label,
        (DetectionUtils.get_color_for_label label
            ((DetectionUtils.get_color_for_label label gs).2)).1 =
          (DetectionUtils.get_color_for_label label gs).1) ∧
    (∀ gs label lab2 c, gs.label_colors.lookup lab2 = some c →
        ((DetectionUtils.get_color_for_label label gs).2).label_colors.lookup lab2 =
          some c) ∧
    (∀ gs label, gs.label_colors.lookup label = none →
        ((DetectionUtils.get_color_for_label label gs).2).label_colors =
          gs.label_colors ++ [(label, (DetectionUtils.get_color_for_label label gs).1)]) ∧
    (∀ prims image detections gs lab2 c, gs.label_colors.lookup lab2 = some c →
        ((DetectionUtils.draw_bounding_boxes prims image detections gs).2).label_colors.lookup
          lab2 = some c) := by
  refine ⟨rfl, ?_, ?_, ?_, ?_, ?_, ?_⟩
  · intro gs label c h
    exact get_color_cached h
  · intro gs label
    exact get_color_mem
  · intro gs label
    exact congrArg Prod.fst (get_color_cached get_color_mem)
  · intro gs label lab2 c h
    exact get_color_preserves h
  · intro gs label h
    exact get_color_new h
  · intro prims image detections gs lab2 c h
    exact draw_preserves h

/-- C5 witness: on a state caching `"cat" ↦ (1,2,3)`, a call for `"cat"`
returns exactly that color and leaves the state untouched, and a
`draw_bounding_boxes` call for one `"dog"` detection keeps the `"cat"`
entry intact. -/
theorem get_color_for_label_stable_witness :
    DetectionUtils.get_color_for_label "cat"
        ⟨[("cat", (1, 2, 3))], fun _ => (7, 7, 7), 0⟩ =
      ((1, 2, 3), ⟨[("cat", (1, 2, 3))], fun _ => (7, 7, 7), 0⟩) ∧
    ((DetectionUtils.draw_bounding_boxes
          ⟨fun img _ _ _ _ => img, fun img _ _ _ => img⟩ ⟨[]⟩
          [⟨⟨0, 0, 4, 4⟩, "dog"⟩]
          ⟨[("cat", (1, 2, 3))], fun _ => (7, 7, 7), 0⟩).2).label_colors.lookup "cat" =
      some (1, 2, 3) :=
  ⟨get_color_for_label_stable.2.1 ⟨[("cat", (1, 2, 3))], fun _ => (7, 7, 7), 0⟩ "cat"
      (1, 2, 3) rfl,
    get_color_for_label_stable.2.2.2.2.2.2
      ⟨fun img _ _ _ _ => img, fun img _ _ _ => img⟩ ⟨[]⟩
      [⟨⟨0, 0, 4, 4⟩, "dog"⟩]
      ⟨[("cat", (1, 2, 3))], fun _ => (7, 7, 7), 0⟩ "cat" (1, 2, 3) rfl⟩

/-- C8: drawing an empty detection list returns the image unchanged
pixel-for-pixel and leaves the global state — in particular the
label→color cache — unchanged, for any drawing primitives. -/
theorem draw_bounding_boxes_empty (prims : DrawPrims) (image : Image) (gs : GlobalState) :
    DetectionUtils.draw_bounding_boxes prims image [] gs = (image, gs) := rfl

namespace SegmentationUtils

/-- State-threaded run of `segmentation_map_to_image` against the
process-global state. The Python body references neither
`DetectionUtils.label_colors` nor the `random` module, so its effect on
the global state is the identity. -/
def segmentation_map_to_image_run (gs : GlobalState) (seg : SegmentationResult) :
    Except SegError (Image × List ColoredLabel) × GlobalState :=
  (segmentation_map_to_image seg, gs)

end SegmentationUtils

/-- C10: `segmentation_map_to_image` is deterministic — its result is the
same under any two global states (cache contents and random streams) and
it leaves the global state unchanged — whereas
`DetectionUtils.get_color_for_label`, used by `draw_bounding_boxes`, can
return different colors from the same empty cache under two different
random streams. -/
theorem segmentation_map_to_image_deterministic :
    (∀ gs1 gs2 seg, (SegmentationUtils.segmentation_map_to_image_run gs1 seg).1 =
        (SegmentationUtils.segmentation_map_to_image_run gs2 seg).1) ∧
    (∀ gs seg, (SegmentationUtils.segmentation_map_to_image_run gs seg).2 = gs) ∧
    (∃ gs1 gs2 : GlobalState,
        gs1.label_colors = initialLabelColors ∧ gs2.label_colors = initialLabelColors ∧
        (DetectionUtils.get_color_for_label "person" gs1).1 ≠
          (DetectionUtils.get_color_for_label "person" gs2).1) :=
  ⟨fun _ _ _ => rfl, fun _ _ => rfl,
    ⟨⟨[], fun _ => (0, 0, 0), 0⟩, ⟨[], fun _ => (255, 255, 255), 0⟩, rfl, rfl, by decide⟩⟩

/-- Coverage function abstracting cv2's font rasterisation:
`glyphs text org r c` tells whether the rendering of `text` at origin
`org` covers the pixel at row `r`, column `c`. `cv2.putText` paints the
covered pixels in the given color and never changes the array's shape. -/
abbrev GlyphFun : Type := String → (Nat × Nat) → Nat → Nat → Bool

/-- Apply a positional pixel update to one row, `c` being the column of
the first pixel. -/
def overlayRow (f : Nat → Color → Color) : List Color → Nat → List Color
  | [], _ => []
  | px :: rest, c => f c px :: overlayRow f rest (c + 1)

/-- Apply a positional pixel update to a list of rows, `r` being the row
index of the first row. -/
def overlayRows (f : Nat → Nat → Color → Color) : List (List Color) → Nat → List (List Color)
  | [], _ => []
  | row :: rest, r => overlayRow (f r) row 0 :: overlayRows f rest (r + 1)

/-- In-place pixel update of an image: pixel `(r, c)` becomes
`f r c oldValue`. Models every cv2 call that draws onto an existing
array without changing its shape. -/
def overlayPixels (f : Nat → Nat → Color → Color) (img : Image) : Image :=
  ⟨overlayRows f img.rows 0⟩

theorem length_overlayRow (f : Nat → Color → Color) :
    ∀ (row : List Color) (c : Nat), (overlayRow f row c).length = row.length := by
  intro row
  induction row with
  | nil => intro c; rfl
  | cons px rest ih =>
    intro c
    show (overlayRow f rest (c + 1)).length + 1 = rest.length + 1
    rw [ih]

theorem map_length_overlayRows (f : Nat → Nat → Color → Color) :
    ∀ (rows : List (List Color)) (r : Nat),
      (overlayRows f rows r).map List.length = rows.map List.length := by
  intro rows
  induction rows with
  | nil => intro r; rfl
  | cons row rest ih =>
    intro r
    show (overlayRow (f r) row 0).length :: (overlayRows f rest (r + 1)).map List.length =
      row.length :: rest.map List.length
    rw [length_overlayRow, ih]

theorem rect_overlayPixels {img : Image} {H W : Nat} (f : Nat → Nat → Color → Color)
    (h : img.Rect H W) : (overlayPixels f img).Rect H W := by
  unfold Image.Rect at h ⊢
  show (overlayRows f img.rows 0).map List.length = List.replicate H W
  rw [map_length_overlayRows]
  exact h

namespace SegmentationUtils

/-- `_FPS_LEFT_MARGIN` (pixels). -/
def FPS_LEFT_MARGIN : Nat := 24

/-- `_LEGEND_TEXT_COLOR` (red, in BGR). -/
def LEGEND_TEXT_COLOR : Color := (0, 0, 255)

/-- `_LEGEND_BACKGROUND_COLOR` (white). -/
def LEGEND_BACKGROUND_COLOR : Color := (255, 255, 255)

/-- `_LEGEND_ROW_SIZE` (pixels). -/
def LEGEND_ROW_SIZE : Nat := 20

/-- `_LEGEND_RECT_SIZE` (pixels). -/
def LEGEND_RECT_SIZE : Nat := 16

/-- `_LABEL_MARGIN` (pixels). -/
def LABEL_MARGIN : Nat := 10

/-- `_PADDING_WIDTH_FOR_LEGEND` (pixels). -/
def PADDING_WIDTH_FOR_LEGEND : Nat := 150

/-- `cv2.putText` on an existing array: paint the pixels covered by the
rendered text in the text color, in place; the shape never changes (cv2
clips glyphs at the borders). The font face, scale and thickness only
influence which pixels are covered, which the `glyphs` parameter
abstracts. -/
def putText (glyphs : GlyphFun) (text : String) (org : Nat × Nat) (color : Color)
    (img : Image) : Image :=
  overlayPixels (fun r c px => if glyphs text org r c then color else px) img

/-- `cv2.rectangle` with a negative thickness, as called in the legend
loop: fill the axis-aligned rectangle between the two corner points
(inclusive, clipped at the borders) with the given color, in place.
Points are `(x, y)` = `(column, row)`. -/
def rectangleFill (p1 p2 : Nat × Nat) (color : Color) (img : Image) : Image :=
  overlayPixels (fun r c px =>
    if p1.2 ≤ r ∧ r ≤ p2.2 ∧ p1.1 ≤ c ∧ c ≤ p2.1 then color else px) img

/-- One channel of `cv2.addWeighted(a, 0.5, b, 0.5, 0)`: the equal-weight
average. cv2 rounds the float `0.5*x + 0.5*y` to the nearest integer; the
claims never depend on the blended values, so the floor average stands in
for the exact rounding. -/
def blendChannel (x y : Nat) : Nat := (x + y) / 2

/-- Equal-weight blend of two BGR pixels. -/
def blendColor (p q : Color) : Color :=
  (blendChannel p.1 q.1, blendChannel p.2.1 q.2.1, blendChannel p.2.2 q.2.2)

/-- `cv2.addWeighted(a, 0.5, b, 0.5, 0)`: a freshly allocated equal-weight
blend; cv2 raises an error unless the two arrays have the same shape. -/
def addWeighted (a b : Image) : Option Image :=
  if a.rows.map List.length = b.rows.map List.length then
    some ⟨List.zipWith (fun ra rb => List.zipWith blendColor ra rb) a.rows b.rows⟩
  else none

/-- `cv2.hconcat([a, b])`: a freshly allocated horizontal concatenation;
cv2 raises an error unless the two arrays have the same number of rows. -/
def hconcat (a b : Image) : Option Image :=
  if a.rows.length = b.rows.length then
    some ⟨List.zipWith (fun ra rb => ra ++ rb) a.rows b.rows⟩
  else none

/-- `cv2.copyMakeBorder(img, 0, 0, 0, right, cv2.BORDER_CONSTANT, None,
color)`: a freshly allocated copy with `right` constant-colored pixels
appended to every row. -/
def copyMakeBorder (img : Image) (right : Nat) (color : Color) : Image :=
  ⟨img.rows.map (fun row => row ++ List.replicate right color)⟩

end SegmentationUtils

/-- The numpy arrays alive during a call, indexed by allocation order.
Python passes arrays by reference and cv2 draws on them in place, so the
embedding runs `visualize` against an explicit store of buffers to state
which buffers a call mutates. -/
abbrev Heap : Type := List Image

/-- Dereference a buffer id. -/
def readBuf (h : Heap) (i : Nat) : Image := h.getD i ⟨[]⟩

/-- Allocate a fresh buffer (as `cv2.addWeighted`, `cv2.hconcat` and
`cv2.copyMakeBorder` do for their results), returning its id. -/
def allocBuf (h : Heap) (img : Image) : Nat × Heap := (h.length, h ++ [img])

/-- Overwrite an existing buffer in place (as `cv2.putText` and
`cv2.rectangle` do). -/
def writeBuf (h : Heap) (i : Nat) (img : Image) : Heap := h.set i img

theorem length_writeBuf (h : Heap) (i : Nat) (img : Image) :
    (writeBuf h i img).length = h.length := by
  simp [writeBuf]

theorem readBuf_append_lt : ∀ {h : Heap} {i : Nat}, i < h.length →
    ∀ img, readBuf (h ++ [img]) i = readBuf h i := by
  intro h
  induction h with
  | nil => intro i hi img; cases hi
  | cons x t ih =>
    intro i hi img
    cases i with
    | zero => rfl
    | succ n =>
      show readBuf (t ++ [img]) n = readBuf t n
      exact ih (Nat.lt_of_succ_lt_succ hi) img

theorem readBuf_append_self : ∀ (h : Heap) (img : Image), readBuf (h ++ [img]) h.length = img := by
  intro h
  induction h with
  | nil => intro img; rfl
  | cons x t ih =>
    intro img
    show readBuf (t ++ [img]) t.length = img
    exact ih img

theorem readBuf_writeBuf_ne : ∀ {h : Heap} {i j : Nat}, i ≠ j →
    ∀ img, readBuf (writeBuf h i img) j = readBuf h j := by
  intro h
  induction h with
  | nil => intro i j _ img; rfl
  | cons x t ih =>
    intro i j hij img
    cases i with
    | zero =>
      cases j with
      | zero => exact absurd rfl hij
      | succ m => rfl
    | succ n =>
      cases j with
      | zero => rfl
      | succ m =>
        show readBuf (writeBuf t n img) m = readBuf t m
        exact ih (fun hc => hij (congrArg Nat.succ hc)) img

theorem readBuf_writeBuf_self : ∀ {h : Heap} {i : Nat}, i < h.length →
    ∀ img, readBuf (writeBuf h i img) i = img := by
  intro h
  induction h with
  | nil => intro i hi img; cases hi
  | cons x t ih =>
    intro i hi img
    cases i with
    | zero => rfl
    | succ n =>
      show readBuf (writeBuf t n img) n = img
      exact ih (Nat.lt_of_succ_lt_succ hi) img

theorem rect_height {img : Image} {H W : Nat} (h : img.Rect H W) : img.rows.length = H := by
  have h2 := congrArg List.length h
  simpa using h2

theorem map_length_zipWith_append :
    ∀ {as : List (List Color)} {bs : List (List Color)} {H W1 W2 : Nat},
      as.map List.length = List.replicate H W1 →
      bs.map List.length = List.replicate H W2 →
      (List.zipWith (fun ra rb => ra ++ rb) as bs).map List.length =
        List.replicate H (W1 + W2) := by
  intro as
  induction as with
  | nil =>
    intro bs H W1 W2 ha hb
    cases H with
    | zero => rfl
    | succ n => rw [List.replicate_succ] at ha; cases ha
  | cons a as ih =>
    intro bs H W1 W2 ha hb
    cases H with
    | zero => cases ha
    | succ n =>
      rw [List.replicate_succ] at ha hb
      cases bs with
      | nil => cases hb
      | cons b bs =>
        injection ha with ha1 ha2
        injection hb with hb1 hb2
        rw [List.replicate_succ]
        show (a ++ b).length :: (List.zipWith (fun ra rb => ra ++ rb) as bs).map List.length =
          (W1 + W2) :: List.replicate n (W1 + W2)
        rw [List.length_append, ha1, hb1, ih ha2 hb2]

theorem rect_copyMakeBorder {img : Image} {H W : Nat} {n : Nat} {color : Color}
    (h : img.Rect H W) :
    (SegmentationUtils.copyMakeBorder img n color).Rect H (W + n) := by
  show (img.rows.map (fun row => row ++ List.replicate n color)).map List.length =
    List.replicate H (W + n)
  rw [List.map_map]
  have hcomp : (List.length ∘ fun row : List Color => row ++ List.replicate n color) =
      fun row : List Color => row.length + n := by
    funext row
    simp [Function.comp, List.length_append]
  rw [hcomp]
  have hmm : (img.rows.map fun row : List Color => row.length + n) =
      (img.rows.map List.length).map (fun x => x + n) := by
    rw [List.map_map]
    rfl
  rw [hmm, h, List.map_replicate]

namespace SegmentationUtils

/-- The legend loop at the end of `SegmentationUtils.visualize`: for each
colored label, draw the filled color swatch and the category name onto the
(bordered) overlay buffer, advancing `legend_y` by
`_LEGEND_RECT_SIZE + _LABEL_MARGIN` per row. -/
def legendLoop (glyphs : GlyphFun) (overlayId legend_x : Nat) :
    Heap → Nat → List ColoredLabel → Heap
  | heap, _, [] => heap
  | heap, legend_y, colored_label :: rest =>
    let img := readBuf heap overlayId
    let img1 := rectangleFill (legend_x, legend_y)
      (legend_x + LEGEND_RECT_SIZE, legend_y + LEGEND_RECT_SIZE) colored_label.color img
    let img2 := putText glyphs colored_label.category_name
      (legend_x + LEGEND_RECT_SIZE + LABEL_MARGIN, legend_y + LABEL_MARGIN)
      LEGEND_TEXT_COLOR img1
    legendLoop glyphs overlayId legend_x (writeBuf heap overlayId img2)
      (legend_y + (LEGEND_RECT_SIZE + LABEL_MARGIN)) rest

theorem legendLoop_readBuf_ne {glyphs : GlyphFun} {overlayId legend_x j : Nat}
    (hj : j ≠ overlayId) :
    ∀ {labels : List ColoredLabel} {heap : Heap} {legend_y : Nat},
      readBuf (legendLoop glyphs overlayId legend_x heap legend_y labels) j =
        readBuf heap j := by
  intro labels
  induction labels with
  | nil => intro heap y; rfl
  | cons cl rest ih =>
    intro heap y
    simp only [legendLoop]
    rw [ih, readBuf_writeBuf_ne (Ne.symm hj)]

theorem legendLoop_rect {glyphs : GlyphFun} {overlayId legend_x : Nat} {H W : Nat} :
    ∀ {labels : List ColoredLabel} {heap : Heap} {legend_y : Nat},
      overlayId < heap.length → (readBuf heap overlayId).Rect H W →
      (readBuf (legendLoop glyphs overlayId legend_x heap legend_y labels)
        overlayId).Rect H W := by
  intro labels
  induction labels with
  | nil => intro heap y _ h; exact h
  | cons cl rest ih =>
    intro heap y hlt h
    simp only [legendLoop]
    apply ih
    · rw [length_writeBuf]
      exact hlt
    · rw [readBuf_writeBuf_self hlt]
      exact rect_overlayPixels _ (rect_overlayPixels _ h)

/-- The part of `SegmentationUtils.visualize` following the overlay
construction, starting from the freshly created overlay buffer
`overlayId`: draw the FPS text onto the overlay in place, compute the
legend origin from the overlay's shape, expand the frame to the right by
the legend padding (a fresh buffer), and run the legend loop on the
expanded buffer, whose id is returned. -/
def visualizeRest (glyphs : GlyphFun) (heap : Heap) (overlayId : Nat) (fps : Int)
    (colored_labels : List ColoredLabel) : Nat × Heap :=
  let fps_text := "FPS = " ++ toString fps
  let heap1 := writeBuf heap overlayId
    (putText glyphs fps_text (FPS_LEFT_MARGIN, LEGEND_ROW_SIZE) LEGEND_TEXT_COLOR
      (readBuf heap overlayId))
  let legend_x := (readBuf heap1 overlayId).width + LABEL_MARGIN
  let legend_y := (readBuf heap1 overlayId).height / LEGEND_ROW_SIZE + LABEL_MARGIN
  let border := copyMakeBorder (readBuf heap1 overlayId) PADDING_WIDTH_FOR_LEGEND
    LEGEND_BACKGROUND_COLOR
  let alloc2 := allocBuf heap1 border
  (alloc2.1, legendLoop glyphs alloc2.1 legend_x alloc2.2 legend_y colored_labels)

/-- `SegmentationUtils.visualize` from `src/util/utils.py`, run against the
buffer store: the two image arguments are passed by reference as buffer
ids. `sys.exit(f"ERROR: Unsupported display mode: {display_mode}.")`
becomes the corresponding `Except.error`; a cv2 error from mismatched
shapes in `addWeighted`/`hconcat` likewise. `int(fps)` truncation of the
Python float is abstracted by taking the fps value as an integer. -/
def visualize (glyphs : GlyphFun) (heap : Heap)
    (input_image_id segmentation_map_image_id : Nat) (display_mode : String) (fps : Int)
    (colored_labels : List ColoredLabel) : Except String (Nat × Heap) :=
  if display_mode = "overlay" then
    match addWeighted (readBuf heap input_image_id)
        (readBuf heap segmentation_map_image_id) with
    | some overlay =>
      Except.ok (visualizeRest glyphs (allocBuf heap overlay).2 (allocBuf heap overlay).1
        fps colored_labels)
    | none => Except.error "cv2.error: addWeighted requires images of identical shape"
  else if display_mode = "side-by-side" then
    match hconcat (readBuf heap input_image_id)
        (readBuf heap segmentation_map_image_id) with
    | some overlay =>
      Except.ok (visualizeRest glyphs (allocBuf heap overlay).2 (allocBuf heap overlay).1
        fps colored_labels)
    | none => Except.error "cv2.error: hconcat requires images of equal height"
  else Except.error ("ERROR: Unsupported display mode: " ++ display_mode ++ ".")

theorem legendAlloc_frame {glyphs : GlyphFun} {legend_x legend_y : Nat}
    {labels : List ColoredLabel} {heap : Heap} {overlayId j : Nat}
    (img border : Image) (hj1 : j ≠ overlayId) (hj2 : j < heap.length) :
    readBuf (legendLoop glyphs (allocBuf (writeBuf heap overlayId img) border).1 legend_x
      (allocBuf (writeBuf heap overlayId img) border).2 legend_y labels) j =
    readBuf heap j := by
  have hne : j ≠ (writeBuf heap overlayId img).length := by
    rw [length_writeBuf]
    exact Nat.ne_of_lt hj2
  have hlt : j < (writeBuf heap overlayId img).length := by
    rw [length_writeBuf]
    exact hj2
  show readBuf (legendLoop glyphs (writeBuf heap overlayId img).length legend_x
    (writeBuf heap overlayId img ++ [border]) legend_y labels) j = readBuf heap j
  rw [legendLoop_readBuf_ne hne, readBuf_append_lt hlt]
  exact readBuf_writeBuf_ne (Ne.symm hj1) img

theorem legendAlloc_rect {glyphs : GlyphFun} {legend_x legend_y : Nat}
    {labels : List ColoredLabel} {heap : Heap} {overlayId : Nat} {H W : Nat}
    (img border : Image) (hb : border.Rect H W) :
    (readBuf (legendLoop glyphs (allocBuf (writeBuf heap overlayId img) border).1 legend_x
        (allocBuf (writeBuf heap overlayId img) border).2 legend_y labels)
      (allocBuf (writeBuf heap overlayId img) border).1).Rect H W := by
  show (readBuf (legendLoop glyphs (writeBuf heap overlayId img).length legend_x
      (writeBuf heap overlayId img ++ [border]) legend_y labels)
      (writeBuf heap overlayId img).length).Rect H W
  apply legendLoop_rect
  · rw [List.length_append]
    exact Nat.lt_succ_self _
  · rw [readBuf_append_self]
    exact hb

theorem visualizeRest_frame {glyphs : GlyphFun} {fps : Int} {labels : List ColoredLabel}
    {heap : Heap} {overlayId j : Nat} (hj1 : j ≠ overlayId) (hj2 : j < heap.length) :
    readBuf (visualizeRest glyphs heap overlayId fps labels).2 j = readBuf heap j :=
  legendAlloc_frame _ _ hj1 hj2

theorem visualizeRest_rect {glyphs : GlyphFun} {fps : Int} {labels : List ColoredLabel}
    {heap : Heap} {overlayId : Nat} {H W : Nat}
    (hid : overlayId < heap.length) (h : (readBuf heap overlayId).Rect H W) :
    (readBuf (visualizeRest glyphs heap overlayId fps labels).2
      (visualizeRest glyphs heap overlayId fps labels).1).Rect
      H (W + PADDING_WIDTH_FOR_LEGEND) := by
  apply legendAlloc_rect
  apply rect_copyMakeBorder
  rw [readBuf_writeBuf_self hid]
  exact rect_overlayPixels _ h

end SegmentationUtils

/-- C4: for any display mode other than `"overlay"` and `"side-by-side"`,
`visualize` performs no drawing and terminates with the fatal error
message that names the unsupported mode (the embedding of
`sys.exit(f"ERROR: Unsupported display mode: {display_mode}.")`); it never
silently falls back to a default mode. -/
theorem visualize_invalid_mode (glyphs : GlyphFun) (heap : Heap)
    (input_image_id segmentation_map_image_id : Nat) (display_mode : String) (fps : Int)
    (colored_labels : List ColoredLabel)
    (h1 : display_mode ≠ "overlay") (h2 : display_mode ≠ "side-by-side") :
    SegmentationUtils.visualize glyphs heap input_image_id segmentation_map_image_id
        display_mode fps colored_labels =
      Except.error ("ERROR: Unsupported display mode: " ++ display_mode ++ ".") := by
  unfold SegmentationUtils.visualize
  rw [if_neg h1, if_neg h2]

/-- C4 witness: calling `visualize` with display mode `"bogus"` produces
exactly the fatal message naming that mode. -/
theorem visualize_invalid_mode_witness :
    SegmentationUtils.visualize (fun _ _ _ _ => false) [] 0 0 "bogus" 0 [] =
      Except.error ("ERROR: Unsupported display mode: " ++ "bogus" ++ ".") ∧
    "ERROR: Unsupported display mode: " ++ "bogus" ++ "." =
      "ERROR: Unsupported display mode: bogus." :=
  ⟨visualize_invalid_mode (fun _ _ _ _ => false) [] 0 0 "bogus" 0 []
      (by decide) (by decide),
    by decide⟩

/-- C7: on two rectangular `H × W` buffers, `visualize` in
`"side-by-side"` mode succeeds and returns a buffer of height `H` and
width exactly `2 * W + 150`: the horizontal concatenation (width `2W`)
padded on the right by the 150-pixel legend panel. -/
theorem visualize_side_by_side_dimensions (glyphs : GlyphFun) (heap : Heap)
    (input_image_id segmentation_map_image_id : Nat) (fps : Int)
    (colored_labels : List ColoredLabel) (H W : Nat)
    (hin : (readBuf heap input_image_id).Rect H W)
    (hseg : (readBuf heap segmentation_map_image_id).Rect H W) :
    ∃ outId heap',
      SegmentationUtils.visualize glyphs heap input_image_id segmentation_map_image_id
          "side-by-side" fps colored_labels = Except.ok (outId, heap') ∧
      (readBuf heap' outId).Rect H (2 * W + 150) := by
  have hh : (readBuf heap input_image_id).rows.length =
      (readBuf heap segmentation_map_image_id).rows.length := by
    rw [rect_height hin, rect_height hseg]
  cases hcon : SegmentationUtils.hconcat (readBuf heap input_image_id)
      (readBuf heap segmentation_map_image_id) with
  | none =>
    unfold SegmentationUtils.hconcat at hcon
    rw [if_pos hh] at hcon
    cases hcon
  | some ov =>
    have hov : ov.Rect H (W + W) := by
      unfold SegmentationUtils.hconcat at hcon
      rw [if_pos hh] at hcon
      cases hcon
      exact map_length_zipWith_append hin hseg
    unfold SegmentationUtils.visualize
    rw [if_neg (by decide), if_pos rfl, hcon]
    refine ⟨_, _, rfl, ?_⟩
    have hid : (allocBuf heap ov).1 < (allocBuf heap ov).2.length := by
      show heap.length < (heap ++ [ov]).length
      rw [List.length_append]
      exact Nat.lt_succ_self _
    have hbase : (readBuf (allocBuf heap ov).2 (allocBuf heap ov).1).Rect H (W + W) := by
      show (readBuf (heap ++ [ov]) heap.length).Rect H (W + W)
      rw [readBuf_append_self]
      exact hov
    have hfinal := @SegmentationUtils.visualizeRest_rect glyphs fps colored_labels
      (allocBuf heap ov).2 (allocBuf heap ov).1 H (W + W) hid hbase
    have heq2 : W + W + SegmentationUtils.PADDING_WIDTH_FOR_LEGEND = 2 * W + 150 := by
      show W + W + 150 = 2 * W + 150
      omega
    rw [heq2] at hfinal
    exact hfinal

/-- A store holding two 1×1 buffers. -/
def heap2x1 : Heap := [⟨[[(0, 0, 0)]]⟩, ⟨[[(9, 9, 9)]]⟩]

/-- C7 witness: side-by-side on two 1×1 buffers yields a buffer of height
1 and width `2 * 1 + 150`. -/
theorem visualize_side_by_side_dimensions_witness :
    ∃ outId heap',
      SegmentationUtils.visualize (fun _ _ _ _ => false) heap2x1 0 1 "side-by-side" 0 [] =
        Except.ok (outId, heap') ∧
      (readBuf heap' outId).Rect 1 (2 * 1 + 150) :=
  visualize_side_by_side_dimensions (fun _ _ _ _ => false) heap2x1 0 1 0 [] 1 1
    (by decide) (by decide)

theorem frame_of_alloc_run {glyphs : GlyphFun} {fps : Int} {labels : List ColoredLabel}
    {heap heap' : Heap} {outId j : Nat} (ov : Image) (hj : j < heap.length)
    (hok : SegmentationUtils.visualizeRest glyphs (allocBuf heap ov).2 (allocBuf heap ov).1
        fps labels = (outId, heap')) :
    readBuf heap' j = readBuf heap j := by
  have hsnd : heap' = (SegmentationUtils.visualizeRest glyphs (allocBuf heap ov).2
      (allocBuf heap ov).1 fps labels).2 := by
    rw [hok]
  rw [hsnd]
  have hj1 : j ≠ (allocBuf heap ov).1 := Nat.ne_of_lt hj
  have hj2 : j < (allocBuf heap ov).2.length := by
    show j < (heap ++ [ov]).length
    rw [List.length_append]
    exact Nat.lt_succ_of_lt hj
  rw [SegmentationUtils.visualizeRest_frame hj1 hj2]
  exact readBuf_append_lt hj ov

/-- C9: whenever `visualize` returns (in either display mode), the two
input buffers — the input image and the segmentation map image — are left
exactly as they were: the FPS text, the legend swatches and the legend
names are drawn only on the freshly allocated overlay and bordered
buffers, never on the inputs. -/
theorem visualize_does_not_modify_inputs {glyphs : GlyphFun} {heap heap' : Heap}
    {input_image_id segmentation_map_image_id outId : Nat} {display_mode : String}
    {fps : Int} {colored_labels : List ColoredLabel}
    (hin : input_image_id < heap.length) (hseg : segmentation_map_image_id < heap.length)
    (hok : SegmentationUtils.visualize glyphs heap input_image_id segmentation_map_image_id
        display_mode fps colored_labels = Except.ok (outId, heap')) :
    readBuf heap' input_image_id = readBuf heap input_image_id ∧
    readBuf heap' segmentation_map_image_id = readBuf heap segmentation_map_image_id := by
  unfold SegmentationUtils.visualize at hok
  by_cases h1 : display_mode = "overlay"
  · rw [if_pos h1] at hok
    cases haw : SegmentationUtils.addWeighted (readBuf heap input_image_id)
        (readBuf heap segmentation_map_image_id) with
    | none => rw [haw] at hok; cases hok
    | some ov =>
      rw [haw] at hok
      have hpair := Except.ok.inj hok
      exact ⟨frame_of_alloc_run ov hin hpair, frame_of_alloc_run ov hseg hpair⟩
  · rw [if_neg h1] at hok
    by_cases h2 : display_mode = "side-by-side"
    · rw [if_pos h2] at hok
      cases hhc : SegmentationUtils.hconcat (readBuf heap input_image_id)
          (readBuf heap segmentation_map_image_id) with
      | none => rw [hhc] at hok; cases hok
      | some ov =>
        rw [hhc] at hok
        have hpair := Except.ok.inj hok
        exact ⟨frame_of_alloc_run ov hin hpair, frame_of_alloc_run ov hseg hpair⟩
    · rw [if_neg h2] at hok
      cases hok

/-- The store produced by the C9 witness run: the two untouched inputs,
the blended overlay carrying the (empty-coverage) FPS text, and the
bordered overlay. -/
def heapC9res : Heap :=
  [⟨[[(0, 0, 0)]]⟩, ⟨[[(9, 9, 9)]]⟩, ⟨[[(4, 4, 4)]]⟩,
    ⟨[(4, 4, 4) :: List.replicate 150 (255, 255, 255)]⟩]

/-- C9 witness: an overlay-mode run on two 1×1 buffers returns with both
input buffers bit-identical to their initial contents. -/
theorem visualize_does_not_modify_inputs_witness :
    readBuf heapC9res 0 = readBuf heap2x1 0 ∧ readBuf heapC9res 1 = readBuf heap2x1 1 :=
  visualize_does_not_modify_inputs (by decide) (by decide)
    (by decide :
      SegmentationUtils.visualize (fun _ _ _ _ => false) heap2x1 0 1 "overlay" 0 [] =
        Except.ok (3, heapC9res))
